import Mathlib

/-!
Shallow embedding of the layout / argument-resolution core of the Typst
repository, together with theorems checking its natural-language
specification.

Embedded source files:
* `library/src/layout/pad.rs` — the `PadNode` (construction, layout) and the
  free functions `shrink` and `grow` (namespace `Pad`);
* `src/func/map.rs` — the `ConsistentMap` type (namespace `CMap`);
* `src/syntax/mod.rs` — `FuncArgs`, `Expression`, the `ExpressionKind`
  coercions (namespace `Args`).

Lengths and sizes are modelled over `ℚ` (the code uses `f64`; floating-point
rounding is out of scope, arithmetic is exact here).
-/

namespace Pad

/-- Embeds `Rel<Abs>`: a length with a relative fraction (of a reference) and an
absolute offset.  `rel` models `Ratio::get()` (the fraction as a number). -/
structure Rel where
  rel : ℚ
  abs : ℚ
  deriving DecidableEq, Repr

/-- The default (`Default`/zero) relative length. -/
def Rel.default : Rel := ⟨0, 0⟩

/-- Resolve a relative length against a known reference (`Rel::relative_to`):
`rel * whole + abs`. -/
def Rel.relative_to (r : Rel) (whole : ℚ) : ℚ := r.rel * whole + r.abs

/-- Component-wise sum of two relative lengths (the `Add` impl used by
`sum_by_axis` on `Sides<Rel<Abs>>`). -/
def Rel.add (a b : Rel) : Rel := ⟨a.rel + b.rel, a.abs + b.abs⟩

/-- Embeds `Axes<T>`: a horizontal/vertical pair.  `Size = Axes<Abs>`. -/
structure Axes (α : Type) where
  x : α
  y : α
  deriving DecidableEq, Repr

/-- A fully absolute size. -/
abbrev Size := Axes ℚ

/-- Component-wise subtraction of sizes (`Sub for Size`). -/
def Axes.sub (a b : Size) : Size := ⟨a.x - b.x, a.y - b.y⟩

/-- Component-wise addition of points (`frame.translate` moves elements). -/
def Axes.add (a b : Axes ℚ) : Axes ℚ := ⟨a.x + b.x, a.y + b.y⟩

/-- Embeds `Sides<T>`: one value per side. -/
structure Sides (α : Type) where
  left : α
  top : α
  right : α
  bottom : α
  deriving DecidableEq, Repr

/-- Embeds `Sides<Rel<Abs>>::relative_to(size)`: resolve each side against the axis
extent it belongs to — left/right against the width, top/bottom against the
height. -/
def Sides.relative_to (p : Sides Rel) (size : Size) : Sides ℚ :=
  ⟨p.left.relative_to size.x, p.top.relative_to size.y,
   p.right.relative_to size.x, p.bottom.relative_to size.y⟩

/-- Embeds `Sides<Abs>::sum_by_axis`: horizontal total `left + right`, vertical total
`top + bottom`. -/
def Sides.sum_by_axis (p : Sides ℚ) : Size := ⟨p.left + p.right, p.top + p.bottom⟩

/-- Embeds `Sides<Rel<Abs>>::sum_by_axis`: the per-axis sums as relative lengths. -/
def Sides.sum_by_axis_rel (p : Sides Rel) : Axes Rel :=
  ⟨p.left.add p.right, p.top.add p.bottom⟩

/-- Modelled from the spec: `Abs::safe_div` is not among the provided source
files; per the spec it "returns zero (or a defined sentinel) instead of
producing an infinite/NaN result when the divisor is zero". -/
def safe_div (a b : ℚ) : ℚ := if b = 0 then 0 else a / b

/-- Embeds `shrink` from `pad.rs`: shrink a size by padding relative to the size
itself, `size - padding.relative_to(size).sum_by_axis()`. -/
def shrink (size : Size) (padding : Sides Rel) : Size :=
  size.sub ((padding.relative_to size).sum_by_axis)

/-- Embeds `grow` from `pad.rs`: per axis, `(s + p.abs).safe_div(1.0 - p.rel.get())`
where `p` is the axis sum of the padding. -/
def grow (size : Size) (padding : Sides Rel) : Size :=
  let p := padding.sum_by_axis_rel
  ⟨safe_div (size.x + p.x.abs) (1 - p.x.rel),
   safe_div (size.y + p.y.abs) (1 - p.y.rel)⟩

/-- The arguments visible to `PadNode::construct`, already coerced: the
optional results of `args.named("rest")`, `args.find()`, `args.named("x")`,
`args.named("y")` and the four side names. -/
structure PadArgs where
  rest : Option Rel
  found : Option Rel
  x : Option Rel
  y : Option Rel
  left : Option Rel
  top : Option Rel
  right : Option Rel
  bottom : Option Rel

/-- Embeds `PadNode::construct`'s resolution of the four sides:
`let all = args.named("rest")?.or(args.find()?)` and then per side
`args.named(side)?.or(axis).or(all).unwrap_or_default()`. -/
def construct (args : PadArgs) : Sides Rel :=
  let all := args.rest <|> args.found
  let left := (args.left <|> args.x <|> all).getD Rel.default
  let top := (args.top <|> args.y <|> all).getD Rel.default
  let right := (args.right <|> args.x <|> all).getD Rel.default
  let bottom := (args.bottom <|> args.y <|> all).getD Rel.default
  ⟨left, top, right, bottom⟩

/-- A frame: a concrete size and the positions of its elements. -/
structure Frame where
  size : Size
  elems : List (Axes ℚ)
  deriving DecidableEq, Repr

/-- The per-frame body of `PadNode::layout`: grow the frame's size, resolve
the padding against the grown size, set the frame's size to the grown size
and translate every element by `(padding.left, padding.top)`. -/
def pad_frame (padding : Sides Rel) (frame : Frame) : Frame :=
  let padded := grow frame.size padding
  let resolved := padding.relative_to padded
  let offset : Axes ℚ := ⟨resolved.left, resolved.top⟩
  { size := padded, elems := frame.elems.map (fun p => p.add offset) }

end Pad

/-- Embeds `ParseResult<T> = Result<T, Error>`; error payloads are their messages. -/
abbrev ParseResult (α : Type) := Except String α

namespace CMap

/-- Embeds `ConsistentMap<K, V>` from `src/func/map.rs`.  The backing `HashMap` is
modelled extensionally as a key-unique association list: `HashMap::insert`
replaces the binding of its key, here by prepending the new pair and dropping
every older pair with the same key. -/
structure ConsistentMap (K V : Type) [DecidableEq K] where
  map : List (K × V)

variable {K V : Type} [DecidableEq K]

/-- Embeds `ConsistentMap::new`. -/
def ConsistentMap.new : ConsistentMap K V := ⟨[]⟩

/-- Embeds `HashMap::insert`: overwrite any existing binding for the key. -/
def hashInsert (l : List (K × V)) (k : K) (v : V) : List (K × V) :=
  (k, v) :: l.filter (fun p => decide (p.1 ≠ k))

/-- Embeds `HashMap::get`: look up the binding of a key. -/
def hashGet (l : List (K × V)) (k : K) : Option V :=
  (l.find? (fun p => decide (p.1 = k))).map Prod.snd

/-- Embeds `ConsistentMap::add`: `self.map.insert(key, value); Ok(())` (the `// TODO`
in the source notwithstanding, it always succeeds). -/
def ConsistentMap.add (m : ConsistentMap K V) (k : K) (v : V) :
    ParseResult (ConsistentMap K V) :=
  .ok ⟨hashInsert m.map k v⟩

/-- Embeds `ConsistentMap::add_opt`: add only when the value is present. -/
def ConsistentMap.add_opt (m : ConsistentMap K V) (k : K) (v : Option V) :
    ParseResult (ConsistentMap K V) :=
  match v with
  | some v => m.add k v
  | none => .ok m

/-- Embeds `ConsistentMap::with` (named `withKey` here; `with` is reserved in Lean):
call the callback on the value bound to the key, if any. -/
def ConsistentMap.withKey {α : Type} (m : ConsistentMap K V) (k : K)
    (callback : V → α) : Option α :=
  (hashGet m.map k).map callback

/-- Embeds `ConsistentMap::dedup` exactly as written in the source: the body is a
`// TODO` stub which ignores the remapping function and returns
`Ok(ConsistentMap::new())`. -/
def ConsistentMap.dedup {K₂ V₂ : Type} [DecidableEq K₂]
    (_m : ConsistentMap K V) (_f : K → V → ParseResult (K₂ × V₂)) :
    ParseResult (ConsistentMap K₂ V₂) :=
  .ok ConsistentMap.new

/-- Embeds `ConsistentMap::iter`: the (key, value) pairs. -/
def ConsistentMap.iter (m : ConsistentMap K V) : List (K × V) := m.map

end CMap

namespace Args

/-- Embeds `Span` (from `syntax/span.rs`, structure only: a source range). -/
structure Span where
  start : Nat
  finish : Nat
  deriving DecidableEq, Repr

/-- Embeds `Spanned<T>`: a value with its source span. -/
structure Spanned (α : Type) where
  v : α
  span : Span
  deriving DecidableEq, Repr

/-- Embeds `Ident`: an identifier (a validated string). -/
structure Ident where
  name : String
  deriving DecidableEq, Repr

/-- Embeds `Size` from `src/size.rs`: an absolute length (a scalar). -/
abbrev SizeVal := ℚ

/-- Embeds `ScaleSize` from `src/size.rs`: either an absolute size or a scale factor
relative to some reference (the `f32` narrowing of the scale is identity
here). -/
inductive ScaleSize where
  | absolute (s : SizeVal)
  | scaled (s : ℚ)
  deriving DecidableEq, Repr

/-- Embeds `Expression`: an argument or return value. -/
inductive Expression where
  | ident (i : Ident)
  | str (s : String)
  | num (n : ℚ)
  | size (s : SizeVal)
  | bool (b : Bool)
  deriving DecidableEq, Repr

/-- Embeds `KeyArg`: a keyword argument `key = value`. -/
structure KeyArg where
  key : Spanned Ident
  value : Spanned Expression
  deriving DecidableEq, Repr

/-- Embeds `FuncArgs`: positional and keyword arguments of one call. -/
structure FuncArgs where
  pos : List (Spanned Expression)
  key : List (Spanned KeyArg)
  deriving DecidableEq, Repr

/-- Embeds `FuncArgs::new`. -/
def FuncArgs.new : FuncArgs := ⟨[], []⟩

/-- Embeds `FuncArgs::add_pos`: push a positional argument. -/
def FuncArgs.add_pos (args : FuncArgs) (arg : Spanned Expression) : FuncArgs :=
  { args with pos := args.pos ++ [arg] }

/-- Embeds `FuncArgs::add_key`: push a keyword argument (unconditionally). -/
def FuncArgs.add_key (args : FuncArgs) (arg : Spanned KeyArg) : FuncArgs :=
  { args with key := args.key ++ [arg] }

/-- The `ExpressionKind` trait: a kind name and a fallible coercion from an
expression. -/
structure ExpressionKind (α : Type) where
  NAME : String
  from_expr : Spanned Expression → ParseResult α

/-- Embeds `kind!(Expression, "expression", e => e)`. -/
def exprKind : ExpressionKind Expression :=
  ⟨"expression", fun e => .ok e.v⟩

/-- Embeds `kind!(f64, "number", Expression::Num(num) => num)`. -/
def numberKind : ExpressionKind ℚ :=
  ⟨"number", fun e =>
    match e.v with
    | .num n => .ok n
    | _ => .error ("expected " ++ "number")⟩

/-- Embeds `kind!(Size, "size", Expression::Size(size) => size)`. -/
def sizeKind : ExpressionKind SizeVal :=
  ⟨"size", fun e =>
    match e.v with
    | .size s => .ok s
    | _ => .error ("expected " ++ "size")⟩

/-- Embeds `kind!(ScaleSize, "number or size", Size => Absolute, Num => Scaled)`. -/
def scaleSizeKind : ExpressionKind ScaleSize :=
  ⟨"number or size", fun e =>
    match e.v with
    | .size s => .ok (ScaleSize.absolute s)
    | .num n => .ok (ScaleSize.scaled n)
    | _ => .error ("expected " ++ "number or size")⟩

/-- Embeds `FuncArgs::get_pos_opt`: if a positional argument remains, remove the
front one and coerce it, keeping its span.  Returns the result together with
the updated container (the source method takes `&mut self`; the front element
is removed even when the coercion then fails). -/
def FuncArgs.get_pos_opt {α : Type} (k : ExpressionKind α) (args : FuncArgs) :
    ParseResult (Option (Spanned α)) × FuncArgs :=
  match args.pos with
  | [] => (.ok none, args)
  | spanned :: rest =>
      ((k.from_expr spanned).map (fun v => some ⟨v, spanned.span⟩),
       { args with pos := rest })

/-- The free function `expect`: unwrap an optional extraction, turning
absence into the error `expected <kind name>`. -/
def expect {α : Type} (k : ExpressionKind α)
    (opt : ParseResult (Option (Spanned α))) : ParseResult (Spanned α) :=
  match opt with
  | .ok (some spanned) => .ok spanned
  | .ok none => .error ("expected " ++ k.NAME)
  | .error e => .error e

/-- Embeds `FuncArgs::get_pos`: force-extract the first positional argument. -/
def FuncArgs.get_pos {α : Type} (k : ExpressionKind α) (args : FuncArgs) :
    ParseResult (Spanned α) × FuncArgs :=
  let (res, args) := args.get_pos_opt k
  (expect k res, args)

/-- Embeds `Iterator::position`: index of the first element satisfying the
predicate. -/
def position {α : Type} (p : α → Bool) : List α → Option Nat
  | [] => none
  | a :: l => if p a then some 0 else (position p l).map (· + 1)

/-- Embeds `Vec::swap_remove(i)`: remove index `i`, moving the last element into its
place; `none` when out of bounds (the source would panic, but every call site
passes an index found by `position`). -/
def swapRemove {α : Type} (l : List α) (i : Nat) : Option (α × List α) :=
  match l[i]?, l.getLast? with
  | some x, some last => some (x, (l.set i last).dropLast)
  | _, _ => none

/-- Embeds `FuncArgs::get_key_opt`: find the first keyword argument whose key equals
`name` (insertion order), `swap_remove` it and coerce its value, keeping the
span of the whole argument. -/
def FuncArgs.get_key_opt {α : Type} (k : ExpressionKind α) (name : String)
    (args : FuncArgs) : ParseResult (Option (Spanned α)) × FuncArgs :=
  match position (fun arg => arg.v.key.v.name == name) args.key with
  | none => (.ok none, args)
  | some i =>
      match swapRemove args.key i with
      | none => (.ok none, args)
      | some (spanned, rest) =>
          ((k.from_expr spanned.v.value).map (fun v => some ⟨v, spanned.span⟩),
           { args with key := rest })

/-- Embeds `FuncArgs::get_key`: force-extract a keyword argument. -/
def FuncArgs.get_key {α : Type} (k : ExpressionKind α) (name : String)
    (args : FuncArgs) : ParseResult (Spanned α) × FuncArgs :=
  let (res, args) := args.get_key_opt k name
  (expect k res, args)

end Args

section PadTheorems

open Pad

/-- Resolution spec of an `Option` chain `specific <|> axis <|> all` with a
default, shared by the four sides of `PadNode::construct`. -/
lemma getD_chain_spec (s a al : Option Rel) :
    (∀ v, s = some v → ((s <|> a <|> al).getD Rel.default) = v) ∧
    (s = none → ∀ v, a = some v → ((s <|> a <|> al).getD Rel.default) = v) ∧
    (s = none → a = none → ∀ v, al = some v →
      ((s <|> a <|> al).getD Rel.default) = v) ∧
    (s = none → a = none → al = none →
      ((s <|> a <|> al).getD Rel.default) = Rel.default) := by
  cases s <;> cases a <;> cases al <;> simp

/-- C1 (amended): for padding whose relative fractions do not sum to 1 on an
axis, `shrink (grow S p) p` recovers `S` exactly on that axis; the horizontal
and vertical axes are independent. -/
theorem shrink_grow_inverse (S : Size) (p : Sides Rel) :
    (p.left.rel + p.right.rel ≠ 1 → (shrink (grow S p) p).x = S.x) ∧
    (p.top.rel + p.bottom.rel ≠ 1 → (shrink (grow S p) p).y = S.y) := by
  constructor
  · intro h
    have h' : 1 - (p.left.rel + p.right.rel) ≠ 0 := by
      intro h0; exact h (by linarith)
    simp only [shrink, grow, safe_div, Sides.relative_to, Sides.sum_by_axis,
      Sides.sum_by_axis_rel, Rel.relative_to, Rel.add, Axes.sub, if_neg h']
    field_simp
    ring
  · intro h
    have h' : 1 - (p.top.rel + p.bottom.rel) ≠ 0 := by
      intro h0; exact h (by linarith)
    simp only [shrink, grow, safe_div, Sides.relative_to, Sides.sum_by_axis,
      Sides.sum_by_axis_rel, Rel.relative_to, Rel.add, Axes.sub, if_neg h']
    field_simp
    ring

/-- Witness for `shrink_grow_inverse` at a concrete non-degenerate padding. -/
theorem shrink_grow_inverse_witness :
    (shrink (grow ⟨100, 50⟩ ⟨⟨1/4, 3⟩, ⟨0, 2⟩, ⟨1/4, 5⟩, ⟨1/2, 0⟩⟩)
        ⟨⟨1/4, 3⟩, ⟨0, 2⟩, ⟨1/4, 5⟩, ⟨1/2, 0⟩⟩).x = 100 ∧
    (shrink (grow ⟨100, 50⟩ ⟨⟨1/4, 3⟩, ⟨0, 2⟩, ⟨1/4, 5⟩, ⟨1/2, 0⟩⟩)
        ⟨⟨1/4, 3⟩, ⟨0, 2⟩, ⟨1/4, 5⟩, ⟨1/2, 0⟩⟩).y = 50 :=
  ⟨(shrink_grow_inverse ⟨100, 50⟩ _).1 (by norm_num),
   (shrink_grow_inverse ⟨100, 50⟩ _).2 (by norm_num)⟩

/-- C1 counterexample: the padding `left = 50%, right = 50%` has every
relative fraction strictly below 1, yet `shrink (grow S p) p ≠ S` for the
content size `S = (100, 100)`: the horizontal fractions sum to 1, so `grow`
falls back to the safe-division sentinel `0`. -/
theorem shrink_grow_inverse_cex :
    ((1 : ℚ)/2 < 1 ∧ (0 : ℚ) < 1) ∧
    shrink (grow ⟨100, 100⟩ ⟨⟨1/2, 0⟩, ⟨0, 0⟩, ⟨1/2, 0⟩, ⟨0, 0⟩⟩)
        ⟨⟨1/2, 0⟩, ⟨0, 0⟩, ⟨1/2, 0⟩, ⟨0, 0⟩⟩ ≠ (⟨100, 100⟩ : Size) := by
  refine ⟨⟨by norm_num, by norm_num⟩, ?_⟩
  simp only [shrink, grow, safe_div, Sides.relative_to, Sides.sum_by_axis,
    Sides.sum_by_axis_rel, Rel.relative_to, Rel.add, Axes.sub]
  norm_num [Axes.mk.injEq]

/-- C5: when the relative fractions of the padding sum to exactly 1 on an
axis, `grow` does not blow up: the safe division's divisor is zero and the
grown extent on that axis is the defined fallback `0`. -/
theorem grow_degenerate (S : Size) (p : Sides Rel) :
    (p.left.rel + p.right.rel = 1 → (grow S p).x = 0) ∧
    (p.top.rel + p.bottom.rel = 1 → (grow S p).y = 0) := by
  constructor
  · intro h
    simp [grow, safe_div, Sides.sum_by_axis_rel, Rel.add, h]
  · intro h
    simp [grow, safe_div, Sides.sum_by_axis_rel, Rel.add, h]

/-- Witness for `grow_degenerate`: fractions `1/2 + 1/2` on the horizontal
axis yield a grown width of `0`. -/
theorem grow_degenerate_witness :
    (grow ⟨100, 100⟩ ⟨⟨1/2, 7⟩, ⟨0, 0⟩, ⟨1/2, 0⟩, ⟨0, 0⟩⟩).x = 0 :=
  (grow_degenerate ⟨100, 100⟩ ⟨⟨1/2, 7⟩, ⟨0, 0⟩, ⟨1/2, 0⟩, ⟨0, 0⟩⟩).1
    (by norm_num)

/-- C8: with padding `left = 50%` (all other sides zero) and a child frame of
content size 100 on the horizontal axis, `grow` yields outer width 200,
resolving the padding against the grown size gives a left inset of 100, and
the frame's content is translated by exactly that inset. -/
theorem pad_concrete_scenario :
    (grow ⟨100, 50⟩ ⟨⟨1/2, 0⟩, ⟨0, 0⟩, ⟨0, 0⟩, ⟨0, 0⟩⟩).x = 200 ∧
    ((⟨⟨1/2, 0⟩, ⟨0, 0⟩, ⟨0, 0⟩, ⟨0, 0⟩⟩ : Sides Rel).relative_to
        (grow ⟨100, 50⟩ ⟨⟨1/2, 0⟩, ⟨0, 0⟩, ⟨0, 0⟩, ⟨0, 0⟩⟩)).left = 100 ∧
    pad_frame ⟨⟨1/2, 0⟩, ⟨0, 0⟩, ⟨0, 0⟩, ⟨0, 0⟩⟩ ⟨⟨100, 50⟩, [⟨0, 0⟩]⟩ =
      ⟨⟨200, 50⟩, [⟨100, 0⟩]⟩ := by
  refine ⟨?_, ?_, ?_⟩ <;>
    norm_num [pad_frame, grow, safe_div, Sides.relative_to, Rel.relative_to,
      Sides.sum_by_axis_rel, Rel.add, Axes.add, Frame.mk.injEq,
      Axes.mk.injEq]

/-- C10: `shrink` subtracts without clamping: when the resolved padding sum
exceeds the region's extent on an axis, the child target size is negative on
that axis. -/
theorem shrink_no_clamp (size : Size) (p : Sides Rel) :
    ((p.relative_to size).sum_by_axis.x > size.x → (shrink size p).x < 0) ∧
    ((p.relative_to size).sum_by_axis.y > size.y → (shrink size p).y < 0) := by
  constructor
  · intro h
    simp only [shrink, Axes.sub]
    linarith
  · intro h
    simp only [shrink, Axes.sub]
    linarith

/-- Witness for `shrink_no_clamp`: absolute padding `60 + 60` against a
region of width 100 gives a negative child width. -/
theorem shrink_no_clamp_witness :
    ((⟨⟨0, 60⟩, ⟨0, 0⟩, ⟨0, 60⟩, ⟨0, 0⟩⟩ : Sides Rel).relative_to
        ⟨100, 100⟩).sum_by_axis.x > (100 : ℚ) ∧
    (shrink ⟨100, 100⟩ ⟨⟨0, 60⟩, ⟨0, 0⟩, ⟨0, 60⟩, ⟨0, 0⟩⟩).x < 0 := by
  refine ⟨?_, (shrink_no_clamp ⟨100, 100⟩ _).1 ?_⟩ <;>
    norm_num [Sides.relative_to, Rel.relative_to, Sides.sum_by_axis]

/-- C2: `PadNode::construct` resolves each side with precedence
specific > axis > all > default, where the catch-all value is the `rest`
keyword or the first matching positional; in particular, given only `x`,
both `left` and `right` equal the `x` value. -/
theorem construct_precedence (args : PadArgs) :
    ((∀ v, args.left = some v → (construct args).left = v) ∧
     (args.left = none → ∀ v, args.x = some v → (construct args).left = v) ∧
     (args.left = none → args.x = none → ∀ v,
        (args.rest <|> args.found) = some v → (construct args).left = v) ∧
     (args.left = none → args.x = none → args.rest = none →
        args.found = none → (construct args).left = Rel.default)) ∧
    ((∀ v, args.top = some v → (construct args).top = v) ∧
     (args.top = none → ∀ v, args.y = some v → (construct args).top = v) ∧
     (args.top = none → args.y = none → ∀ v,
        (args.rest <|> args.found) = some v → (construct args).top = v) ∧
     (args.top = none → args.y = none → args.rest = none →
        args.found = none → (construct args).top = Rel.default)) ∧
    ((∀ v, args.right = some v → (construct args).right = v) ∧
     (args.right = none → ∀ v, args.x = some v → (construct args).right = v) ∧
     (args.right = none → args.x = none → ∀ v,
        (args.rest <|> args.found) = some v → (construct args).right = v) ∧
     (args.right = none → args.x = none → args.rest = none →
        args.found = none → (construct args).right = Rel.default)) ∧
    ((∀ v, args.bottom = some v → (construct args).bottom = v) ∧
     (args.bottom = none → ∀ v, args.y = some v → (construct args).bottom = v) ∧
     (args.bottom = none → args.y = none → ∀ v,
        (args.rest <|> args.found) = some v → (construct args).bottom = v) ∧
     (args.bottom = none → args.y = none → args.rest = none →
        args.found = none → (construct args).bottom = Rel.default)) ∧
    (args.left = none → args.right = none → ∀ v, args.x = some v →
      (construct args).left = v ∧ (construct args).right = v) := by
  obtain ⟨rest, found, x, y, left, top, right, bottom⟩ := args
  have hl := getD_chain_spec left x (rest <|> found)
  have ht := getD_chain_spec top y (rest <|> found)
  have hr := getD_chain_spec right x (rest <|> found)
  have hb := getD_chain_spec bottom y (rest <|> found)
  refine ⟨⟨hl.1, hl.2.1, hl.2.2.1, ?_⟩, ⟨ht.1, ht.2.1, ht.2.2.1, ?_⟩,
    ⟨hr.1, hr.2.1, hr.2.2.1, ?_⟩, ⟨hb.1, hb.2.1, hb.2.2.1, ?_⟩, ?_⟩
  · intro h1 h2 h3 h4
    exact hl.2.2.2 h1 h2 (by rw [show rest = none from h3, show found = none from h4]; rfl)
  · intro h1 h2 h3 h4
    exact ht.2.2.2 h1 h2 (by rw [show rest = none from h3, show found = none from h4]; rfl)
  · intro h1 h2 h3 h4
    exact hr.2.2.2 h1 h2 (by rw [show rest = none from h3, show found = none from h4]; rfl)
  · intro h1 h2 h3 h4
    exact hb.2.2.2 h1 h2 (by rw [show rest = none from h3, show found = none from h4]; rfl)
  · intro h1 h2 v hv
    exact ⟨hl.2.1 h1 v hv, hr.2.1 h2 v hv⟩

/-- Witness for `construct_precedence`: with only `x` supplied, both `left`
and `right` come out as the `x` value. -/
theorem construct_precedence_witness :
    (construct ⟨none, none, some ⟨1/3, 2⟩, none, none, none, none, none⟩).left
        = ⟨1/3, 2⟩ ∧
    (construct ⟨none, none, some ⟨1/3, 2⟩, none, none, none, none, none⟩).right
        = ⟨1/3, 2⟩ :=
  (construct_precedence ⟨none, none, some ⟨1/3, 2⟩, none, none, none,
    none, none⟩).2.2.2.2 rfl rfl ⟨1/3, 2⟩ rfl

end PadTheorems

section CMapTheorems

open CMap

/-- C4: `add` is unconditional last-write-wins: adding `v1` then `v2` under
the same key never errors, and afterwards the binding observable through
`with`/`iter` is exactly `v2`. -/
theorem add_overwrite {K V : Type} [DecidableEq K]
    (m : ConsistentMap K V) (k : K) (v1 v2 : V) :
    ∃ m2 : ConsistentMap K V,
      (m.add k v1).bind (fun m1 => m1.add k v2) = .ok m2 ∧
      m2.withKey k id = some v2 ∧
      ∀ v, (k, v) ∈ m2.iter → v = v2 := by
  refine ⟨⟨hashInsert (hashInsert m.map k v1) k v2⟩, rfl, ?_, ?_⟩
  · simp [ConsistentMap.withKey, hashGet, hashInsert, List.find?]
  · intro v hv
    simp only [ConsistentMap.iter, hashInsert, List.mem_cons,
      List.mem_filter] at hv
    rcases hv with h | ⟨_, h⟩
    · exact (Prod.mk.injEq .. ▸ h).2
    · simp at h

/-- Witness for `add_overwrite` at a concrete map. -/
theorem add_overwrite_witness :
    ∃ m2 : ConsistentMap String Nat,
      (ConsistentMap.new.add "k" 1).bind (fun m1 => m1.add "k" 2) = .ok m2 ∧
      m2.withKey "k" id = some 2 ∧
      ∀ v, ("k", v) ∈ m2.iter → v = 2 :=
  add_overwrite ConsistentMap.new "k" 1 2

/-- C3: `dedup` in the source is a `// TODO` stub.  Two distinct keys `"a"`
and `"b"` both remapped to `"c"` do not produce the documented "duplicate"
error: `dedup` returns `Ok` of the *empty* map (which does not even contain
the remapped pairs), contradicting the function's own doc comment. -/
theorem dedup_stub_ignores_collisions :
    (∃ m : ConsistentMap String Nat,
      (ConsistentMap.new.add "a" 1).bind (fun m1 => m1.add "b" 2) = .ok m ∧
      m.withKey "a" id = some 1 ∧ m.withKey "b" id = some 2 ∧
      m.dedup (fun _ v => .ok ("c", v)) =
        .ok (ConsistentMap.new : ConsistentMap String Nat)) ∧
    (ConsistentMap.new : ConsistentMap String Nat).withKey "c" id = none := by
  refine ⟨⟨⟨[("b", 2), ("a", 1)]⟩, rfl, ?_, ?_, rfl⟩, rfl⟩ <;>
    simp [ConsistentMap.withKey, hashGet, List.find?]

end CMapTheorems

section ArgsTheorems

open Args

/-- C6: `get_pos` removes exactly the first positional argument and coerces
it; it errors precisely when no positional remains or the front value does
not coerce, and the missing-argument error names the expected kind. -/
theorem get_pos_spec {α : Type} (k : ExpressionKind α) (args : FuncArgs) :
    (args.pos = [] →
      args.get_pos k = (.error ("expected " ++ k.NAME), args)) ∧
    (∀ e rest, args.pos = e :: rest →
      (args.get_pos k).2 = { args with pos := rest } ∧
      (args.get_pos k).1 =
        (k.from_expr e).map (fun v => (⟨v, e.span⟩ : Spanned α))) ∧
    ((∃ err, (args.get_pos k).1 = .error err) ↔
      args.pos = [] ∨
      ∃ e rest err, args.pos = e :: rest ∧ k.from_expr e = .error err) := by
  obtain ⟨pos, key⟩ := args
  cases pos with
  | nil =>
      refine ⟨?_, ?_, ?_⟩
      · intro
        rfl
      · intro e rest h
        cases h
      · simp [FuncArgs.get_pos, FuncArgs.get_pos_opt, expect]
  | cons e rest =>
      refine ⟨?_, ?_, ?_⟩
      · intro h
        cases h
      · intro e' rest' h
        cases h
        cases hf : k.from_expr e <;>
          simp [FuncArgs.get_pos, FuncArgs.get_pos_opt, expect, hf,
            Except.map]
      · cases hf : k.from_expr e <;>
          simp [FuncArgs.get_pos, FuncArgs.get_pos_opt, expect, hf,
            Except.map]

/-- Witness for `get_pos_spec`: forcing a positional from an empty container
yields the error naming the expected kind. -/
theorem get_pos_spec_witness :
    FuncArgs.new.get_pos numberKind =
      (.error ("expected " ++ numberKind.NAME), FuncArgs.new) :=
  (get_pos_spec numberKind FuncArgs.new).1 rfl

/-- C7: `ScaleSize` coerces from exactly a size literal (absolute variant) or
a numeric literal (scaled variant) and rejects everything else, while plain
numbers coerce only from numeric literals and plain sizes only from size
literals. -/
theorem coercion_kinds (e : Spanned Expression) :
    (∀ s, e.v = .size s → scaleSizeKind.from_expr e = .ok (.absolute s)) ∧
    (∀ n, e.v = .num n → scaleSizeKind.from_expr e = .ok (.scaled n)) ∧
    ((∃ v, scaleSizeKind.from_expr e = .ok v) ↔
      (∃ s, e.v = .size s) ∨ (∃ n, e.v = .num n)) ∧
    ((∀ s, e.v ≠ .size s) → (∀ n, e.v ≠ .num n) →
      scaleSizeKind.from_expr e = .error ("expected " ++ scaleSizeKind.NAME)) ∧
    ((∃ v, numberKind.from_expr e = .ok v) ↔ ∃ n, e.v = .num n) ∧
    ((∃ v, sizeKind.from_expr e = .ok v) ↔ ∃ s, e.v = .size s) := by
  obtain ⟨v, span⟩ := e
  cases v <;>
    simp [scaleSizeKind, numberKind, sizeKind]

/-- Witness for `coercion_kinds`: a numeric literal coerces to the scaled
variant of `ScaleSize`. -/
theorem coercion_kinds_witness :
    scaleSizeKind.from_expr ⟨.num 2, ⟨0, 0⟩⟩ = .ok (.scaled 2) :=
  (coercion_kinds ⟨.num 2, ⟨0, 0⟩⟩).2.1 2 rfl

/-- Embeds `position` on a list whose prefix has no match finds the first matching
element, at the prefix's length. -/
lemma position_append_cons {α : Type} (p : α → Bool) (pre : List α) (a : α)
    (t : List α) (hpre : ∀ c ∈ pre, p c = false) (ha : p a = true) :
    position p (pre ++ a :: t) = some pre.length := by
  induction pre with
  | nil => simp [position, ha]
  | cons c cs ih =>
      have hc : p c = false := hpre c (by simp)
      simp [position, hc, ih (fun d hd => hpre d (by simp [hd]))]

/-- The index returned by `position` carries a matching element. -/
lemma position_eq_some {α : Type} (p : α → Bool) (l : List α) (i : Nat)
    (h : position p l = some i) : ∃ x, l[i]? = some x ∧ p x = true := by
  induction l generalizing i with
  | nil => simp [position] at h
  | cons a t ih =>
      by_cases hp : p a
      · simp [position, hp] at h
        subst h
        exact ⟨a, by simp, hp⟩
      · simp [position, hp] at h
        obtain ⟨j, hj, rfl⟩ := h
        obtain ⟨x, hx, hpx⟩ := ih j hj
        exact ⟨x, by simpa using hx, hpx⟩

/-- Embeds `position` succeeds when some element matches. -/
lemma position_isSome_of_mem {α : Type} (p : α → Bool) (l : List α) (x : α)
    (hx : x ∈ l) (hp : p x = true) : ∃ i, position p l = some i := by
  induction l with
  | nil => cases hx
  | cons a t ih =>
      by_cases hpa : p a
      · exact ⟨0, by simp [position, hpa]⟩
      · rcases List.mem_cons.mp hx with rfl | hmem
        · exact absurd hp (by simp [hpa])
        · obtain ⟨i, hi⟩ := ih hmem
          exact ⟨i + 1, by simp [position, hpa, hi]⟩

/-- Replacing index `i` by the last element and dropping the last slot is,
up to permutation, the removal of index `i`. -/
lemma set_getLast_dropLast_perm {α : Type} :
    ∀ (l : List α) (hl : l ≠ []) (i : Nat), i < l.length →
      List.Perm ((l.set i (l.getLast hl)).dropLast) (l.eraseIdx i)
  | [], hl, _, _ => absurd rfl hl
  | [a], _, 0, _ => by simp
  | [a], _, (n + 1), h => by simp at h
  | a :: b :: u, _, 0, _ => by
      rw [List.getLast_cons (by simp : b :: u ≠ [])]
      show List.Perm ((b :: u).getLast (by simp) :: (b :: u).dropLast) (b :: u)
      have hd : (b :: u).dropLast ++ [(b :: u).getLast (by simp)] = b :: u :=
        List.dropLast_append_getLast (by simp)
      conv_rhs => rw [← hd]
      exact (List.perm_append_singleton _ _).symm
  | a :: b :: u, _, (n + 1), h => by
      rw [List.getLast_cons (by simp : b :: u ≠ [])]
      show List.Perm ((a :: (b :: u).set n ((b :: u).getLast (by simp))).dropLast)
        (a :: (b :: u).eraseIdx n)
      rw [List.dropLast_cons_of_ne_nil (by
        intro h0
        have := congrArg List.length h0
        simp at this)]
      exact ((set_getLast_dropLast_perm (b :: u) (by simp) n
        (by simpa using Nat.lt_of_succ_lt_succ h)).cons a)

/-- Embeds `swapRemove` at a valid index returns that element, and the remainder is
a permutation of the list with that index erased. -/
lemma swapRemove_spec {α : Type} (l : List α) (i : Nat) (x : α)
    (h : l[i]? = some x) :
    ∃ rest, swapRemove l i = some (x, rest) ∧
      List.Perm rest (l.eraseIdx i) := by
  have hne : l ≠ [] := by rintro rfl; simp at h
  have hlt : i < l.length := by
    by_contra hge
    rw [List.getElem?_eq_none (Nat.le_of_not_lt hge)] at h
    cases h
  have hlast : l.getLast? = some (l.getLast hne) := List.getLast?_eq_getLast l hne
  refine ⟨(l.set i (l.getLast hne)).dropLast, ?_, ?_⟩
  · simp [swapRemove, h, hlast]
  · exact set_getLast_dropLast_perm l hne i hlt

/-- Erasing the index right after a prefix removes the element there. -/
lemma eraseIdx_append_cons {α : Type} (pre : List α) (a : α) (t : List α) :
    (pre ++ a :: t).eraseIdx pre.length = pre ++ t := by
  induction pre with
  | nil => simp
  | cons c cs ih => simpa [List.eraseIdx] using ih

/-- Folding `add_key` over a list of keyword arguments appends them all. -/
lemma foldl_add_key (ps : List (Spanned Expression))
    (acc l : List (Spanned KeyArg)) :
    l.foldl FuncArgs.add_key ⟨ps, acc⟩ = ⟨ps, acc ++ l⟩ := by
  induction l generalizing acc with
  | nil => simp
  | cons a t ih =>
      show t.foldl FuncArgs.add_key ⟨ps, acc ++ [a]⟩ = _
      rw [ih]
      simp

/-- C9: `add_key` appends unconditionally, so two keyword bindings for
`name` coexist in the container; `get_key_opt` then extracts the
earlier-added binding (the first match in insertion order), the later-added
binding stays in the container, and a subsequent extraction for the same
name returns it. -/
theorem get_key_opt_duplicate_keys (name : String)
    (ps : List (Spanned Expression))
    (pre mid post : List (Spanned KeyArg)) (A B : Spanned KeyArg)
    (hA : A.v.key.v.name = name) (hB : B.v.key.v.name = name)
    (hpre : ∀ c ∈ pre, c.v.key.v.name ≠ name)
    (hmid : ∀ c ∈ mid, c.v.key.v.name ≠ name)
    (hpost : ∀ c ∈ post, c.v.key.v.name ≠ name) :
    ∃ rest : List (Spanned KeyArg),
      FuncArgs.get_key_opt exprKind name
          ((pre ++ A :: (mid ++ B :: post)).foldl FuncArgs.add_key ⟨ps, []⟩)
        = (.ok (some ⟨A.v.value.v, A.span⟩), ⟨ps, rest⟩) ∧
      B ∈ rest ∧
      (FuncArgs.get_key_opt exprKind name ⟨ps, rest⟩).1
        = .ok (some ⟨B.v.value.v, B.span⟩) := by
  rw [foldl_add_key, List.nil_append]
  have hpA : (A.v.key.v.name == name) = true := by simp [hA]
  have hpB : (B.v.key.v.name == name) = true := by simp [hB]
  have hpreF : ∀ c ∈ pre, (c.v.key.v.name == name) = false := by
    intro c hc
    simpa using hpre c hc
  have h1 : position (fun arg => arg.v.key.v.name == name)
      (pre ++ A :: (mid ++ B :: post)) = some pre.length :=
    position_append_cons _ pre A _ hpreF hpA
  have h2 : (pre ++ A :: (mid ++ B :: post))[pre.length]? = some A := by
    rw [List.getElem?_append_right (Nat.le_refl _)]
    simp
  obtain ⟨rest, hsw, hperm⟩ :=
    swapRemove_spec (pre ++ A :: (mid ++ B :: post)) pre.length A h2
  rw [eraseIdx_append_cons] at hperm
  have hBrest : B ∈ rest := hperm.mem_iff.mpr (by simp)
  refine ⟨rest, ?_, hBrest, ?_⟩
  · simp [FuncArgs.get_key_opt, h1, hsw, exprKind, Except.map]
  · obtain ⟨j, hj⟩ := position_isSome_of_mem
      (fun arg => arg.v.key.v.name == name) rest B hBrest hpB
    obtain ⟨x, hx, hpx⟩ := position_eq_some
      (fun arg => arg.v.key.v.name == name) rest j hj
    have hxB : x = B := by
      have hxl : x ∈ pre ++ (mid ++ B :: post) :=
        hperm.mem_iff.mp (List.getElem?_mem hx)
      have hxname : x.v.key.v.name = name := by simpa using hpx
      rcases List.mem_append.mp hxl with hx1 | hx2
      · exact absurd hxname (hpre x hx1)
      · rcases List.mem_append.mp hx2 with hx3 | hx4
        · exact absurd hxname (hmid x hx3)
        · rcases List.mem_cons.mp hx4 with rfl | hx5
          · rfl
          · exact absurd hxname (hpost x hx5)
    subst hxB
    obtain ⟨rest2, hsw2, -⟩ := swapRemove_spec rest j x hx
    simp [FuncArgs.get_key_opt, hj, hsw2, exprKind, Except.map]

/-- Witness for `get_key_opt_duplicate_keys`: two bindings for `"k"` added
in order; the first extraction yields the first value, the second extraction
the second. -/
theorem get_key_opt_duplicate_keys_witness :
    ∃ rest : List (Spanned KeyArg),
      FuncArgs.get_key_opt exprKind "k"
          (([⟨⟨⟨⟨"k"⟩, ⟨0, 0⟩⟩, ⟨.num 1, ⟨1, 1⟩⟩⟩, ⟨0, 1⟩⟩,
             ⟨⟨⟨⟨"k"⟩, ⟨2, 2⟩⟩, ⟨.num 2, ⟨3, 3⟩⟩⟩, ⟨2, 3⟩⟩] :
            List (Spanned KeyArg)).foldl FuncArgs.add_key ⟨[], []⟩)
        = (.ok (some ⟨Expression.num 1, ⟨0, 1⟩⟩), ⟨[], rest⟩) ∧
      (⟨⟨⟨⟨"k"⟩, ⟨2, 2⟩⟩, ⟨.num 2, ⟨3, 3⟩⟩⟩, ⟨2, 3⟩⟩ : Spanned KeyArg) ∈ rest ∧
      (FuncArgs.get_key_opt exprKind "k" ⟨[], rest⟩).1
        = .ok (some ⟨Expression.num 2, ⟨2, 3⟩⟩) :=
  get_key_opt_duplicate_keys "k" [] [] [] []
    ⟨⟨⟨⟨"k"⟩, ⟨0, 0⟩⟩, ⟨.num 1, ⟨1, 1⟩⟩⟩, ⟨0, 1⟩⟩
    ⟨⟨⟨⟨"k"⟩, ⟨2, 2⟩⟩, ⟨.num 2, ⟨3, 3⟩⟩⟩, ⟨2, 3⟩⟩
    rfl rfl (by simp) (by simp) (by simp)

end ArgsTheorems
